import Mathlib

/-!
Verification of the `bigNweirdwords` definition handler
(`pages/api` route, source file `src/unnamed/part_000`).

The handler receives `{ text, wordSize }`, extracts distinct lowercase
words of length at least `wordSize` using the JavaScript regex
`\b\w{wordSize,}\b`, truncates to the first ten, and looks up a
definition for each word through a cached, timeout-guarded call to a
single external dictionary source.

Modelling conventions:
* JavaScript strings are Lean `String`s (logically `List Char`); every
  extracted token consists of ASCII word characters (`[A-Za-z0-9_]`),
  on which JavaScript `toLowerCase` agrees with ASCII lowercasing.
* The external network (fetch + 3000ms timeout + response.ok check +
  JSON decode) is abstracted as an oracle `String → Option (List ApiEntry)`:
  `none` covers every failure path caught inside `fetchWithTimeout`
  (network error, non-2xx status, timeout abort, and a payload that
  makes `parse` throw), `some data` is a decoded successful payload.
* Asynchrony: within one request the per-word lookups are started
  concurrently over distinct words and joined with `Promise.allSettled`,
  which returns results in input order; threading the cache
  sequentially is observationally equivalent because the words of one
  request are pairwise distinct.  Across requests, execution is
  sequential.
* The model returns, along with the response, the final cache and the
  number of external fetch attempts, so that cache and call-count
  claims can be stated.
-/

namespace ExamVocab

/-- Static word → emoji table (`examWordIcons` in the source). -/
def examWordIcons : List (String × String) :=
  [("analyze", "🔍"), ("hypothesis", "🧪"), ("research", "📊"),
   ("theory", "💡"), ("data", "📈"), ("method", "🔬"),
   ("conclusion", "✅"), ("evidence", "🕵️"), ("study", "📚"),
   ("academic", "🎓"), ("knowledge", "🌟"), ("complex", "🧩"),
   ("terminology", "💬"), ("sophisticated", "🏆"), ("linguistic", "🌐")]

/-- Decorative icon chosen in the success path of the lookup:
`examWordIcons[word.toLowerCase()] || '🎓'`. -/
structure ExamWordDefinition where
  definition : String
  partOfSpeech : Option String
  «example» : Option String
  icon : Option String
  deriving DecidableEq, Repr

/-- Response entry produced by the handler for one word (`ExamMeaning`
in the source). -/
structure ExamMeaning where
  word : String
  meaning : String
  partOfSpeech : Option String
  «example» : Option String
  icon : Option String
  deriving DecidableEq, Repr

/-- One definition object of the external API payload
(`data[i].meanings[j].definitions[k]`); fields may be absent. -/
structure ApiDefinitionJson where
  definition : Option String
  «example» : Option String
  deriving DecidableEq, Repr

/-- One sense of the external API payload (`data[i].meanings[j]`). -/
structure ApiMeaningJson where
  partOfSpeech : Option String
  definitions : List ApiDefinitionJson
  deriving DecidableEq, Repr

/-- One entry of the external API payload (the JSON array element). -/
structure ApiEntry where
  meanings : List ApiMeaningJson
  deriving DecidableEq, Repr

/-- Decoded payload of a successful external response: the JSON array. -/
abbrev ApiData := List ApiEntry

/-- Oracle abstracting `fetchWithTimeout` for the single registered
source: `none` is any caught failure (network error, non-OK status,
timeout, payload on which `parse` throws), `some data` a decoded
successful payload. -/
abbrev FetchOracle := String → Option ApiData

/-- Parse function of the single registered source: JavaScript
`data[0]?.meanings[0]?.definitions[0]?.definition || 'No advanced definition found.'`
etc.  The `||` default also fires on a present-but-empty definition
string, because the empty string is falsy. -/
def parseAcademic (data : ApiData) : ExamWordDefinition :=
  let firstMeaning : Option ApiMeaningJson := data.head?.bind (fun e => e.meanings.head?)
  let firstDef : Option ApiDefinitionJson := firstMeaning.bind (fun m => m.definitions.head?)
  { definition :=
      match firstDef.bind (fun d => d.definition) with
      | some s => if s = "" then "No advanced definition found." else s
      | none => "No advanced definition found."
    partOfSpeech := firstMeaning.bind (fun m => m.partOfSpeech)
    «example» := firstDef.bind (fun d => d.«example»)
    icon := none }

/-- One registered external provider (`academicSources` element); the
URL is irrelevant to the model, the parse function is kept. -/
structure AcademicSource where
  name : String
  parse : ApiData → ExamWordDefinition

/-- The source registry: exactly one provider is wired in. -/
def academicSources : List AcademicSource :=
  [{ name := "Academic Dictionary API", parse := parseAcademic }]

/-- The `for (const source of academicSources)` loop body: try each
source in order, returning the first parsed definition.  The oracle
models `fetchWithTimeout` of the single registered source, so it is
keyed by the word alone. -/
def runSources (oracle : FetchOracle) (word : String) :
    List AcademicSource → Option ExamWordDefinition
  | [] => none
  | src :: rest =>
    match oracle word with
    | some data => some (src.parse data)
    | none => runSources oracle word rest

/-- Process-wide `definitionCache : Map<string, ExamWordDefinition>`,
modelled as an association list; `Map.set` on a missing key is
prepending, and `List.lookup` returns the most recent binding. -/
abbrev DefinitionCache := List (String × ExamWordDefinition)

/-- ASCII lowercasing of one character, the restriction of JavaScript
`toLowerCase` to the ASCII range (all extracted tokens are ASCII). -/
def lowerStr (s : String) : String :=
  String.mk (s.data.map Char.toLower)

/-- Icon table lookup with default: `examWordIcons[word.toLowerCase()] || '🎓'`. -/
def examIconFor (word : String) : String :=
  match examWordIcons.lookup (lowerStr word) with
  | some i => i
  | none => "🎓"

/-- Sentinel entry returned when every source fails:
`{ definition: "No academic definition found for <word>.", icon: '❓' }`. -/
def sentinelEntry (word : String) : ExamWordDefinition :=
  { definition := "No academic definition found for " ++ word ++ "."
    partOfSpeech := none
    «example» := none
    icon := some "❓" }

/-- Cached, fallback-guarded definition lookup
(`fetchExamDefinitionWithFallback`).  Returns the entry, the cache
after the call, and the number of external fetch attempts made (0 on a
cache hit, 1 otherwise — there is a single registered source).  On
success the icon is attached and the entry cached; on failure the
sentinel is returned and nothing is cached. -/
def fetchExamDefinitionWithFallback (oracle : FetchOracle)
    (cache : DefinitionCache) (word : String) :
    ExamWordDefinition × DefinitionCache × Nat :=
  match cache.lookup word with
  | some d => (d, cache, 0)
  | none =>
    match runSources oracle word academicSources with
    | some d0 =>
      let d : ExamWordDefinition := { d0 with icon := some (examIconFor word) }
      (d, (word, d) :: cache, 1)
    | none => (sentinelEntry word, cache, 1)

/-- JavaScript `\w`: ASCII letters, digits and underscore. -/
def examIsWordChar (c : Char) : Bool :=
  c.isAlphanum || c == '_'

/-- Maximal runs of word characters of a character list; `acc` holds
the (reversed) run currently being scanned.  Global matching of
`\b\w{n,}\b` (for `n ≥ 1`) returns exactly the maximal word-character
runs of length at least `n`, in left-to-right source order. -/
def wordRunsAux : List Char → List Char → List (List Char)
  | [], acc => if acc = [] then [] else [acc.reverse]
  | c :: cs, acc =>
    if examIsWordChar c then wordRunsAux cs (c :: acc)
    else if acc = [] then wordRunsAux cs []
    else acc.reverse :: wordRunsAux cs ([])

/-- Maximal word-character runs of a string, in source order. -/
def wordRuns (text : String) : List (List Char) :=
  wordRunsAux text.data []

/-- Literal characters that `{n,}` denotes when `n` is negative: the
brace sequence is not a syntactically valid quantifier, so (JavaScript
Annex-B extended patterns) the braces, sign, digits and comma are
matched literally. -/
def litPat (n : Int) : List Char :=
  ("\x7b" ++ toString n ++ ",\x7d").data

/-- Word-boundary test for the position before a literal-brace match:
the previous character (none at the start of input) must not be a word
character, because the first pattern atom consumes a word character. -/
def boundaryBefore : Option Char → Bool
  | none => true
  | some p => !examIsWordChar p

/-- Fuel-indexed scanner for the literal pattern `\b\w{n,}\b` with
negative `n`: at each position try to match one word character followed
by the literal text `{n,}` followed by a word boundary (the closing
brace is not a word character, so the final `\b` requires a following
word character); on success emit the match and resume after it
(tracking that the previous character is then the closing brace `}`),
on failure advance one position.  Fuel bounds the number of steps;
`cs.length` steps always suffice. -/
def litScanFuel (pat : List Char) : Nat → Option Char → List Char → List (List Char)
  | 0, _, _ => []
  | _ + 1, _, [] => []
  | fuel + 1, prev, c :: rest =>
    if boundaryBefore prev && examIsWordChar c
        && decide (rest.take pat.length = pat)
        && (match rest.drop pat.length with
            | [] => false
            | c2 :: _ => examIsWordChar c2) then
      (c :: pat) :: litScanFuel pat fuel (some (Char.ofNat 125)) (rest.drop pat.length)
    else
      litScanFuel pat fuel (some c) rest

/-- Matches of the literally interpreted pattern over a whole string. -/
def litScan (text : String) (n : Int) : List String :=
  (litScanFuel (litPat n) text.data.length none text.data).map String.mk

/-- Result of `text.match(new RegExp('\\b\\w{' + wordSize + ',}\\b', 'g')) || []`.
For `wordSize ≥ 1` the pattern matches the maximal word-character runs
of length at least `wordSize`; for negative `wordSize` the braced part
is not a valid quantifier and is matched literally.  `wordSize = 0` is
unreachable: the handler rejects it as falsy before building the
regex, so that branch of the model is arbitrary. -/
def regexMatches (text : String) (n : Int) : List String :=
  if 1 ≤ n then
    ((wordRuns text).map String.mk).filter (fun t => n ≤ (t.length : Int))
  else if n < 0 then
    litScan text n
  else []

/-- First-occurrence deduplication with an explicit seen set:
the semantics of JavaScript `Array.from(new Set(list))`, which keeps
the first occurrence of each value in insertion order. -/
def dedupSeen (seen : List String) : List String → List String
  | [] => []
  | x :: xs =>
    if x ∈ seen then dedupSeen seen xs
    else x :: dedupSeen (x :: seen) xs

/-- JavaScript `Array.from(new Set(list))`. -/
def dedupFirst (xs : List String) : List String :=
  dedupSeen [] xs

/-- Candidate-word extraction of the handler:
match the word regex, lowercase each token, filter again by length
(redundant for positive `wordSize`, operative for negative), and
deduplicate keeping first occurrences. -/
def extractCandidates (text : String) (n : Int) : List String :=
  dedupFirst (((regexMatches text n).map lowerStr).filter (fun w => n ≤ (w.length : Int)))

/-- Incoming request: HTTP method, `req.body.text` (absent or a
string; a non-string body field fails the same `typeof` check as an
absent one) and `req.body.wordSize` (absent or an integer). -/
structure ExamApiRequest where
  method : String
  text : Option String
  wordSize : Option Int
  deriving DecidableEq, Repr

/-- Settled HTTP response of the handler. -/
inductive ExamApiResponse where
  | ok (meanings : List ExamMeaning) (totalWordsFound : Nat) (processedWords : Nat)
  | badRequest (error : String)
  | methodNotAllowed (allow : String) (body : String)
  deriving DecidableEq, Repr

/-- Per-word lookup fan-out of the handler: each word is looked up and
wrapped in an `ExamMeaning`; `Promise.allSettled` joins the results in
input order and every promise fulfills (the lookup never rejects), so
the subsequent fulfilled-filter keeps everything.  The cache is
threaded left to right (the words of one request are pairwise
distinct, so this is observationally equivalent to the concurrent
start); the third component counts external fetch attempts. -/
def runExamLookups (oracle : FetchOracle) :
    DefinitionCache → List String → List ExamMeaning × DefinitionCache × Nat
  | cache, [] => ([], cache, 0)
  | cache, w :: ws =>
    let r := fetchExamDefinitionWithFallback oracle cache w
    let rest := runExamLookups oracle r.2.1 ws
    ({ word := w
       meaning := r.1.definition
       partOfSpeech := r.1.partOfSpeech
       «example» := r.1.«example»
       icon := r.1.icon } :: rest.1,
     rest.2.1,
     r.2.2 + rest.2.2)

/-- Request handler (`handler` in the source): POST-only; rejects a
missing/empty/non-string `text` and a missing/zero (falsy) `wordSize`
with 400 `Invalid exam input`; otherwise extracts candidates, truncates
to the first ten, looks each up, and answers 200 with the meanings,
the pre-truncation count and the processed count.  Returns the
response, the cache after the request, and the number of external
fetch attempts made during the request. -/
def handler (oracle : FetchOracle) (cache : DefinitionCache)
    (req : ExamApiRequest) : ExamApiResponse × DefinitionCache × Nat :=
  if req.method = "POST" then
    match req.text, req.wordSize with
    | some t, some n =>
      if t = "" ∨ n = 0 then
        (.badRequest "Invalid exam input", cache, 0)
      else
        let words := extractCandidates t n
        let limitedWords := words.take 10
        let r := runExamLookups oracle cache limitedWords
        (.ok r.1 words.length limitedWords.length, r.2.1, r.2.2)
    | _, _ => (.badRequest "Invalid exam input", cache, 0)
  else
    (.methodNotAllowed "POST" ("Method " ++ req.method ++ " Not Allowed"), cache, 0)

/-- Lowered token list the extractor deduplicates: regex matches,
lowercased, filtered by the length threshold; its order is the
left-to-right occurrence order of the tokens in the source text. -/
def loweredTokens (text : String) (n : Int) : List String :=
  ((regexMatches text n).map lowerStr).filter (fun w => n ≤ (w.length : Int))

/-- Conjunction asserted by claim C1 about the extractor's output. -/
def ExtractorSpec (text : String) (n : Int) : Prop :=
  (∀ t ∈ regexMatches text n, (∀ c ∈ t.data, examIsWordChar c = true) ∧ n ≤ (t.length : Int))
  ∧ (∀ w, w ∈ extractCandidates text n ↔ w ∈ loweredTokens text n)
  ∧ (extractCandidates text n).Nodup
  ∧ (∀ w ∈ extractCandidates text n,
      lowerStr w = w ∧ n ≤ (w.length : Int) ∧ ∃ t ∈ regexMatches text n, w = lowerStr t)
  ∧ List.Pairwise (fun a b =>
      (loweredTokens text n).indexOf a < (loweredTokens text n).indexOf b)
      (extractCandidates text n)
  ∧ List.Pairwise (fun a b => lowerStr a ≠ lowerStr b) (extractCandidates text n)

/-!
Helper lemmas shared by the claim theorems.
-/

theorem toNat_ofNat_upper {k : Nat} (h1 : 65 ≤ k) (h2 : k ≤ 90) :
    (Char.ofNat (k + 32)).toNat = k + 32 := by
  interval_cases k <;> decide

theorem toLower_eq_self {c : Char} (h : ¬(65 ≤ c.toNat ∧ c.toNat ≤ 90)) :
    c.toLower = c := by
  unfold Char.toLower
  rw [if_neg]
  intro hc
  exact h ⟨hc.1, hc.2⟩

theorem toLower_toLower (c : Char) : c.toLower.toLower = c.toLower := by
  by_cases h : 65 ≤ c.toNat ∧ c.toNat ≤ 90
  · have h1 : c.toLower.toNat = c.toNat + 32 := by
      unfold Char.toLower
      rw [if_pos ⟨h.1, h.2⟩]
      exact toNat_ofNat_upper h.1 h.2
    apply toLower_eq_self
    omega
  · rw [toLower_eq_self h, toLower_eq_self h]

theorem map_toLower_map_toLower : ∀ (l : List Char),
    (l.map Char.toLower).map Char.toLower = l.map Char.toLower := by
  intro l
  induction l with
  | nil => rfl
  | cons c cs ih =>
    simp only [List.map_cons]
    rw [toLower_toLower, ih]

theorem lowerStr_idem (s : String) : lowerStr (lowerStr s) = lowerStr s :=
  congrArg String.mk (map_toLower_map_toLower s.data)

theorem lowerStr_length (s : String) : (lowerStr s).length = s.length :=
  List.length_map s.data Char.toLower

theorem mem_dedupSeen (y : String) : ∀ (xs seen : List String),
    y ∈ dedupSeen seen xs ↔ y ∈ xs ∧ y ∉ seen := by
  intro xs
  induction xs with
  | nil =>
    intro seen
    simp [dedupSeen]
  | cons x xs ih =>
    intro seen
    by_cases hx : x ∈ seen
    · rw [dedupSeen, if_pos hx, ih]
      constructor
      · rintro ⟨hy, hn⟩
        exact ⟨List.mem_cons_of_mem _ hy, hn⟩
      · rintro ⟨hy, hn⟩
        rcases List.mem_cons.mp hy with rfl | hy
        · exact absurd hx hn
        · exact ⟨hy, hn⟩
    · rw [dedupSeen, if_neg hx]
      rw [List.mem_cons, ih]
      constructor
      · rintro (rfl | ⟨hy, hn⟩)
        · exact ⟨List.mem_cons_self _ _, hx⟩
        · have hy1 : y ∉ seen := fun hc => hn (List.mem_cons_of_mem _ hc)
          exact ⟨List.mem_cons_of_mem _ hy, hy1⟩
      · rintro ⟨hy, hn⟩
        rcases List.mem_cons.mp hy with rfl | hy
        · exact Or.inl rfl
        · by_cases hyx : y = x
          · exact Or.inl hyx
          · refine Or.inr ⟨hy, ?_⟩
            intro hc
            rcases List.mem_cons.mp hc with rfl | hc
            · exact hyx rfl
            · exact hn hc

theorem nodup_dedupSeen : ∀ (xs seen : List String), (dedupSeen seen xs).Nodup := by
  intro xs
  induction xs with
  | nil =>
    intro seen
    simp [dedupSeen]
  | cons x xs ih =>
    intro seen
    by_cases hx : x ∈ seen
    · rw [dedupSeen, if_pos hx]
      exact ih seen
    · rw [dedupSeen, if_neg hx]
      refine List.Nodup.cons ?_ (ih (x :: seen))
      intro hmem
      exact ((mem_dedupSeen x xs (x :: seen)).mp hmem).2 (List.mem_cons_self x seen)

theorem pairwise_indexOf_dedupSeen : ∀ (xs seen : List String),
    List.Pairwise (fun a b => xs.indexOf a < xs.indexOf b) (dedupSeen seen xs) := by
  intro xs
  induction xs with
  | nil =>
    intro seen
    simp [dedupSeen]
  | cons x xs ih =>
    intro seen
    by_cases hx : x ∈ seen
    · rw [dedupSeen, if_pos hx]
      refine (ih seen).imp_of_mem ?_
      intro a b ha hb hab
      have hax : x ≠ a := fun he => ((mem_dedupSeen a xs seen).mp ha).2 (he ▸ hx)
      have hbx : x ≠ b := fun he => ((mem_dedupSeen b xs seen).mp hb).2 (he ▸ hx)
      rw [List.indexOf_cons_ne _ hax, List.indexOf_cons_ne _ hbx]
      exact Nat.succ_lt_succ hab
    · rw [dedupSeen, if_neg hx]
      refine List.pairwise_cons.mpr ⟨?_, ?_⟩
      · intro b hb
        have hbx : x ≠ b := fun he =>
          ((mem_dedupSeen b xs (x :: seen)).mp hb).2 (he ▸ List.mem_cons_self x seen)
        rw [List.indexOf_cons_self, List.indexOf_cons_ne _ hbx]
        exact Nat.succ_pos _
      · refine (ih (x :: seen)).imp_of_mem ?_
        intro a b ha hb hab
        have hax : x ≠ a := fun he =>
          ((mem_dedupSeen a xs (x :: seen)).mp ha).2 (he ▸ List.mem_cons_self x seen)
        have hbx : x ≠ b := fun he =>
          ((mem_dedupSeen b xs (x :: seen)).mp hb).2 (he ▸ List.mem_cons_self x seen)
        rw [List.indexOf_cons_ne _ hax, List.indexOf_cons_ne _ hbx]
        exact Nat.succ_lt_succ hab


theorem wordRunsAux_wordChar : ∀ (cs acc : List Char),
    (∀ c ∈ acc, examIsWordChar c = true) →
    ∀ r ∈ wordRunsAux cs acc, ∀ c ∈ r, examIsWordChar c = true := by
  intro cs
  induction cs with
  | nil =>
    intro acc hacc r hr
    rw [wordRunsAux] at hr
    by_cases ha : acc = ([] : List Char)
    · rw [if_pos ha] at hr
      exact absurd hr (List.not_mem_nil r)
    · rw [if_neg ha] at hr
      rcases List.mem_singleton.mp hr with rfl
      intro c hc
      exact hacc c (List.mem_reverse.mp hc)
  | cons c0 cs ih =>
    intro acc hacc r hr
    rw [wordRunsAux] at hr
    by_cases hw : examIsWordChar c0 = true
    · rw [if_pos hw] at hr
      refine ih (c0 :: acc) ?_ r hr
      intro d hd
      rcases List.mem_cons.mp hd with rfl | hd
      · exact hw
      · exact hacc d hd
    · rw [if_neg hw] at hr
      by_cases ha : acc = ([] : List Char)
      · rw [if_pos ha] at hr
        exact ih [] (by intro d hd; exact absurd hd (List.not_mem_nil d)) r hr
      · rw [if_neg ha] at hr
        rcases List.mem_cons.mp hr with rfl | hr
        · intro d hd
          exact hacc d (List.mem_reverse.mp hd)
        · exact ih [] (by intro d hd; exact absurd hd (List.not_mem_nil d)) r hr

theorem runExamLookups_map_word (oracle : FetchOracle) :
    ∀ (ws : List String) (cache : DefinitionCache),
      (runExamLookups oracle cache ws).1.map (fun m => m.word) = ws := by
  intro ws
  induction ws with
  | nil =>
    intro cache
    rfl
  | cons w ws ih =>
    intro cache
    rw [runExamLookups]
    simp only [List.map_cons]
    rw [ih]

theorem runExamLookups_length (oracle : FetchOracle) (ws : List String)
    (cache : DefinitionCache) :
    (runExamLookups oracle cache ws).1.length = ws.length := by
  have h := congrArg List.length (runExamLookups_map_word oracle ws cache)
  rw [List.length_map] at h
  exact h

theorem handler_post_valid (oracle : FetchOracle) (cache : DefinitionCache)
    (t : String) (n : Int) (ht : t ≠ "") (hn : n ≠ 0) :
    handler oracle cache ⟨"POST", some t, some n⟩ =
      (.ok (runExamLookups oracle cache ((extractCandidates t n).take 10)).1
          (extractCandidates t n).length ((extractCandidates t n).take 10).length,
       (runExamLookups oracle cache ((extractCandidates t n).take 10)).2.1,
       (runExamLookups oracle cache ((extractCandidates t n).take 10)).2.2) := by
  simp [handler, ht, hn]

theorem lookup_val_mem : ∀ (l : List (String × String)) (k v : String),
    l.lookup k = some v → v ∈ l.map Prod.snd := by
  intro l
  induction l with
  | nil =>
    intro k v h
    simp [List.lookup] at h
  | cons p l ih =>
    intro k v h
    obtain ⟨a, b⟩ := p
    rw [List.lookup] at h
    rcases hka : (k == a) with _ | _
    · rw [hka] at h
      simp only at h
      exact List.mem_cons_of_mem _ (ih k v h)
    · rw [hka] at h
      simp only [Option.some.injEq] at h
      rw [List.map_cons]
      exact h ▸ List.mem_cons_self _ _

theorem examIconFor_ne_question (w : String) : examIconFor w ≠ "❓" := by
  unfold examIconFor
  rcases h : examWordIcons.lookup (lowerStr w) with _ | v
  · decide
  · have hv := lookup_val_mem examWordIcons (lowerStr w) v h
    simp only [examWordIcons, List.map_cons, List.map_nil] at hv
    fin_cases hv <;> decide

/-!
Claim theorems.
-/

/-- C1: for every input text and valid minimum word length, the
extractor produces the distinct lowercase word-boundary tokens
(alphanumeric/underscore runs) of length at least the minimum, with no
case-insensitive duplicates, ordered by first occurrence in the text. -/
theorem extractor_unique_lowercase_first_seen
    (text : String) (n : Int) (h : 1 ≤ n) : ExtractorSpec text n := by
  have hmatch : regexMatches text n =
      ((wordRuns text).map String.mk).filter (fun t => n ≤ (t.length : Int)) := by
    rw [regexMatches, if_pos h]
  have htok : ∀ t ∈ regexMatches text n,
      (∀ c ∈ t.data, examIsWordChar c = true) ∧ n ≤ (t.length : Int) := by
    intro t ht
    rw [hmatch] at ht
    have ht1 := List.mem_filter.mp ht
    obtain ⟨r, hr, rfl⟩ := List.mem_map.mp ht1.1
    refine ⟨?_, of_decide_eq_true ht1.2⟩
    intro c hc
    exact wordRunsAux_wordChar text.data []
      (fun d hd => absurd hd (List.not_mem_nil d)) r hr c hc
  have hmem : ∀ w, w ∈ extractCandidates text n ↔ w ∈ loweredTokens text n := by
    intro w
    rw [extractCandidates, dedupFirst]
    simp only [loweredTokens]
    rw [mem_dedupSeen w _ []]
    simp only [List.not_mem_nil, not_false_iff, and_true]
  have hlow : ∀ w ∈ extractCandidates text n,
      lowerStr w = w ∧ n ≤ (w.length : Int) ∧ ∃ t ∈ regexMatches text n, w = lowerStr t := by
    intro w hw
    have hwl := (hmem w).mp hw
    have h1 := List.mem_filter.mp hwl
    obtain ⟨t, htm, rfl⟩ := List.mem_map.mp h1.1
    exact ⟨lowerStr_idem t, of_decide_eq_true h1.2, t, htm, rfl⟩
  have hnodup : (extractCandidates text n).Nodup := nodup_dedupSeen _ []
  refine ⟨htok, hmem, hnodup, hlow, ?_, ?_⟩
  · exact pairwise_indexOf_dedupSeen (loweredTokens text n) []
  · refine hnodup.imp_of_mem ?_
    intro a b ha hb hab
    rw [(hlow a ha).1, (hlow b hb).1]
    exact hab

/-- Witness for C1 at a concrete text mixing cases and duplicates. -/
theorem extractor_unique_lowercase_first_seen_witness :
    (1 : Int) ≤ 3 ∧ ExtractorSpec "Theory theory The cat_dog" 3 :=
  ⟨by decide, extractor_unique_lowercase_first_seen "Theory theory The cat_dog" 3 (by decide)⟩

/-- C9: with wordSize 7 and the spec's example sentence, the candidate
list is exactly hypothesis, requires, rigorous, analysis, in that
order, and the short word The is excluded. -/
theorem example_wordSize7_candidates :
    extractCandidates "The hypothesis requires rigorous analysis" 7 =
      ["hypothesis", "requires", "rigorous", "analysis"]
    ∧ "the" ∉ extractCandidates "The hypothesis requires rigorous analysis" 7
    ∧ "The" ∉ extractCandidates "The hypothesis requires rigorous analysis" 7 := by
  refine ⟨by decide, by decide, by decide⟩


/-- C2: on a valid POST request the 200 meanings list has exactly one
entry per truncated candidate word — its length equals processedWords —
and the i-th entry's word is the i-th truncated candidate, so the list
is in extraction-time candidate order. -/
theorem meanings_preserve_candidate_order
    (oracle : FetchOracle) (cache : DefinitionCache) (t : String) (n : Int)
    (ht : t ≠ "") (hn : n ≠ 0) :
    ∃ ms total processed,
      (handler oracle cache ⟨"POST", some t, some n⟩).1 = .ok ms total processed
      ∧ ms.length = processed
      ∧ ms.map (fun m => m.word) = (extractCandidates t n).take 10
      ∧ ∀ i : Nat, (ms[i]?.map fun m => m.word) = ((extractCandidates t n).take 10)[i]? := by
  have hmap := runExamLookups_map_word oracle ((extractCandidates t n).take 10) cache
  refine ⟨(runExamLookups oracle cache ((extractCandidates t n).take 10)).1,
    (extractCandidates t n).length, ((extractCandidates t n).take 10).length,
    ?_, ?_, hmap, ?_⟩
  · rw [handler_post_valid oracle cache t n ht hn]
  · exact runExamLookups_length oracle _ cache
  · intro i
    conv_rhs => rw [← hmap]
    rw [List.getElem?_map]

/-- Witness for C2 on a two-word text with a failing oracle. -/
theorem meanings_preserve_candidate_order_witness :
    ("hypothesis analysis" ≠ "" ∧ (8 : Int) ≠ 0)
    ∧ ∃ ms total processed,
      (handler (fun _ => none) [] ⟨"POST", some "hypothesis analysis", some 8⟩).1
        = .ok ms total processed
      ∧ ms.length = processed
      ∧ ms.map (fun m => m.word) = (extractCandidates "hypothesis analysis" 8).take 10
      ∧ ∀ i : Nat, (ms[i]?.map fun m => m.word)
          = ((extractCandidates "hypothesis analysis" 8).take 10)[i]? :=
  ⟨⟨by decide, by decide⟩,
   meanings_preserve_candidate_order (fun _ => none) [] "hypothesis analysis" 8
     (by decide) (by decide)⟩

/-- C3: on a valid POST request totalWordsFound is the full distinct
candidate count before truncation, processedWords is its minimum with
ten, and totalWordsFound dominates processedWords. -/
theorem totalWords_processedWords_relation
    (oracle : FetchOracle) (cache : DefinitionCache) (t : String) (n : Int)
    (ht : t ≠ "") (hn : n ≠ 0) :
    ∃ ms,
      (handler oracle cache ⟨"POST", some t, some n⟩).1
        = .ok ms (extractCandidates t n).length
            (min (extractCandidates t n).length 10)
      ∧ min (extractCandidates t n).length 10 ≤ (extractCandidates t n).length
      ∧ min (extractCandidates t n).length 10 ≤ 10 := by
  refine ⟨(runExamLookups oracle cache ((extractCandidates t n).take 10)).1, ?_,
    Nat.min_le_left _ _, Nat.min_le_right _ _⟩
  rw [handler_post_valid oracle cache t n ht hn]
  rw [List.length_take, Nat.min_comm]

/-- Witness for C3 on a text with eleven distinct long words, so that
the reported total (11) strictly exceeds the processed count (10). -/
theorem totalWords_processedWords_relation_witness :
    ("aaaaa bbbbb ccccc ddddd eeeee fffff ggggg hhhhh iiiii jjjjj kkkkk" ≠ ""
      ∧ (5 : Int) ≠ 0)
    ∧ ∃ ms,
      (handler (fun _ => none) []
        ⟨"POST", some "aaaaa bbbbb ccccc ddddd eeeee fffff ggggg hhhhh iiiii jjjjj kkkkk", some 5⟩).1
        = .ok ms
            (extractCandidates "aaaaa bbbbb ccccc ddddd eeeee fffff ggggg hhhhh iiiii jjjjj kkkkk" 5).length
            (min (extractCandidates "aaaaa bbbbb ccccc ddddd eeeee fffff ggggg hhhhh iiiii jjjjj kkkkk" 5).length 10)
      ∧ min (extractCandidates "aaaaa bbbbb ccccc ddddd eeeee fffff ggggg hhhhh iiiii jjjjj kkkkk" 5).length 10
          ≤ (extractCandidates "aaaaa bbbbb ccccc ddddd eeeee fffff ggggg hhhhh iiiii jjjjj kkkkk" 5).length
      ∧ min (extractCandidates "aaaaa bbbbb ccccc ddddd eeeee fffff ggggg hhhhh iiiii jjjjj kkkkk" 5).length 10
          ≤ 10 :=
  ⟨⟨by decide, by decide⟩,
   totalWords_processedWords_relation (fun _ => none) []
     "aaaaa bbbbb ccccc ddddd eeeee fffff ggggg hhhhh iiiii jjjjj kkkkk" 5
     (by decide) (by decide)⟩


/-- C4: when a lookup misses the cache and the external call fails in
any way, the lookup (which is total, hence never raises) returns the
sentinel entry — definition `No academic definition found for <word>.`,
whose first 32 characters are `No academic definition found for`, and
icon `❓` — the cache is untouched, and a batch of lookups always
yields one entry per word, so one failure aborts neither the sibling
lookups nor the batch. -/
theorem lookup_failure_sentinel_isolated
    (oracle : FetchOracle) (cache : DefinitionCache) (w : String)
    (hmiss : cache.lookup w = none) (hfail : oracle w = none) :
    fetchExamDefinitionWithFallback oracle cache w = (sentinelEntry w, cache, 1)
    ∧ (sentinelEntry w).definition = "No academic definition found for " ++ w ++ "."
    ∧ (sentinelEntry w).definition.data.take 32 = "No academic definition found for".data
    ∧ (sentinelEntry w).icon = some "❓"
    ∧ ∀ ws : List String, (runExamLookups oracle cache ws).1.length = ws.length := by
  refine ⟨?_, rfl, ?_, rfl, fun ws => runExamLookups_length oracle ws cache⟩
  · rw [fetchExamDefinitionWithFallback, hmiss]
    simp only [runSources, academicSources, hfail]
  · show ("No academic definition found for " ++ w ++ ".").data.take 32 = _
    have hsplit : ("No academic definition found for " ++ w ++ ".").data
        = ("No academic definition found for ".data ++ w.data) ++ ".".data := rfl
    rw [hsplit]
    rw [List.take_append_of_le_length (by
      rw [List.length_append]
      have h33 : ("No academic definition found for ".data).length = 33 := by decide
      omega)]
    rw [List.take_append_of_le_length (by decide)]
    decide


/-- Witness for C4: failing oracle, empty cache, the word study. -/
theorem lookup_failure_sentinel_isolated_witness :
    (([] : DefinitionCache).lookup "study" = none
      ∧ ((fun _ => none) : FetchOracle) "study" = none)
    ∧ (fetchExamDefinitionWithFallback (fun _ => none) [] "study"
        = (sentinelEntry "study", [], 1)
      ∧ (sentinelEntry "study").definition = "No academic definition found for " ++ "study" ++ "."
      ∧ (sentinelEntry "study").definition.data.take 32 = "No academic definition found for".data
      ∧ (sentinelEntry "study").icon = some "❓"
      ∧ ∀ ws : List String,
          (runExamLookups (fun _ => none) [] ws).1.length = ws.length) :=
  ⟨⟨rfl, rfl⟩, lookup_failure_sentinel_isolated (fun _ => none) [] "study" rfl rfl⟩

/-- C5: the cache never stores a failure — a failed lookup leaves the
cache unchanged and still costs one external attempt, again on every
retry; and any lookup that does change the cache did so on the success
path, prepending an entry whose icon comes from the icon table (never
the sentinel's `❓`). -/
theorem cache_never_stores_failure
    (oracle : FetchOracle) (cache : DefinitionCache) (w : String)
    (hfail : oracle w = none) :
    (fetchExamDefinitionWithFallback oracle cache w).2.1 = cache
    ∧ (cache.lookup w = none →
        (fetchExamDefinitionWithFallback oracle cache w).2.2 = 1
        ∧ (fetchExamDefinitionWithFallback oracle
            ((fetchExamDefinitionWithFallback oracle cache w).2.1) w).2.2 = 1)
    ∧ (∀ (oracle2 : FetchOracle) (cache2 : DefinitionCache) (w2 : String),
        (fetchExamDefinitionWithFallback oracle2 cache2 w2).2.1 ≠ cache2 →
        ∃ d, oracle2 w2 = some d ∧ cache2.lookup w2 = none
          ∧ (fetchExamDefinitionWithFallback oracle2 cache2 w2).2.1
              = (w2, (fetchExamDefinitionWithFallback oracle2 cache2 w2).1) :: cache2
          ∧ (fetchExamDefinitionWithFallback oracle2 cache2 w2).1.icon
              = some (examIconFor w2)
          ∧ examIconFor w2 ≠ "❓") := by
  have hunch : (fetchExamDefinitionWithFallback oracle cache w).2.1 = cache := by
    rw [fetchExamDefinitionWithFallback]
    rcases hm : cache.lookup w with _ | d
    · simp only [runSources, academicSources, hfail]
    · rfl
  refine ⟨hunch, ?_, ?_⟩
  · intro hmiss
    have h1 : (fetchExamDefinitionWithFallback oracle cache w).2.2 = 1 := by
      rw [fetchExamDefinitionWithFallback, hmiss]
      simp only [runSources, academicSources, hfail]
    rw [hunch]
    exact ⟨h1, h1⟩
  · intro oracle2 cache2 w2 hch
    rw [fetchExamDefinitionWithFallback] at hch ⊢
    rcases hm : cache2.lookup w2 with _ | d
    · rw [hm] at hch
      rcases ho : runSources oracle2 w2 academicSources with _ | d0
      · rw [ho] at hch
        exact absurd rfl hch
      · rw [ho] at hch
        have hdata : ∃ data, oracle2 w2 = some data ∧ d0 = parseAcademic data := by
          simp only [academicSources, runSources] at ho
          rcases ha : oracle2 w2 with _ | data
          · rw [ha] at ho
            exact absurd ho (by simp)
          · rw [ha] at ho
            simp only [Option.some.injEq] at ho
            exact ⟨data, rfl, ho.symm⟩
        obtain ⟨data, hdo, rfl⟩ := hdata
        exact ⟨data, hdo, rfl, rfl, rfl, examIconFor_ne_question w2⟩
    · rw [hm] at hch
      exact absurd rfl hch

/-- Witness for C5: failing oracle, empty cache, the word theory. -/
theorem cache_never_stores_failure_witness :
    (((fun _ => none) : FetchOracle) "theory" = none)
    ∧ ((fetchExamDefinitionWithFallback (fun _ => none) [] "theory").2.1 = []
      ∧ (([] : DefinitionCache).lookup "theory" = none →
          (fetchExamDefinitionWithFallback (fun _ => none) [] "theory").2.2 = 1
          ∧ (fetchExamDefinitionWithFallback (fun _ => none)
              ((fetchExamDefinitionWithFallback (fun _ => none) [] "theory").2.1) "theory").2.2 = 1)
      ∧ (∀ (oracle2 : FetchOracle) (cache2 : DefinitionCache) (w2 : String),
          (fetchExamDefinitionWithFallback oracle2 cache2 w2).2.1 ≠ cache2 →
          ∃ d, oracle2 w2 = some d ∧ cache2.lookup w2 = none
            ∧ (fetchExamDefinitionWithFallback oracle2 cache2 w2).2.1
                = (w2, (fetchExamDefinitionWithFallback oracle2 cache2 w2).1) :: cache2
            ∧ (fetchExamDefinitionWithFallback oracle2 cache2 w2).1.icon
                = some (examIconFor w2)
            ∧ examIconFor w2 ≠ "❓")) :=
  ⟨rfl, cache_never_stores_failure (fun _ => none) [] "theory" rfl⟩


/-- C10: a successful (2xx, decoded) response whose first sense's first
definition object lacks a definition text (absent or empty) yields the
distinct default `No advanced definition found.` — not the sentinel:
its icon is the table icon, never `❓` — and this entry IS cached, so
the not-found result of a successful response is never retried
(the repeat lookup is a cache hit with zero external calls). -/
theorem empty_definition_default_cached
    (oracle : FetchOracle) (cache : DefinitionCache) (w : String)
    (data : ApiData) (entry : ApiEntry) (m : ApiMeaningJson) (dd : ApiDefinitionJson)
    (hmiss : cache.lookup w = none)
    (hdata : oracle w = some data)
    (hhead : data.head? = some entry)
    (hm : entry.meanings.head? = some m)
    (hd : m.definitions.head? = some dd)
    (hempty : dd.definition = none ∨ dd.definition = some "") :
    (fetchExamDefinitionWithFallback oracle cache w).1.definition
      = "No advanced definition found."
    ∧ (fetchExamDefinitionWithFallback oracle cache w).1.icon = some (examIconFor w)
    ∧ examIconFor w ≠ "❓"
    ∧ (fetchExamDefinitionWithFallback oracle cache w).2.1
        = (w, (fetchExamDefinitionWithFallback oracle cache w).1) :: cache
    ∧ fetchExamDefinitionWithFallback oracle
        ((fetchExamDefinitionWithFallback oracle cache w).2.1) w
        = ((fetchExamDefinitionWithFallback oracle cache w).1,
           (fetchExamDefinitionWithFallback oracle cache w).2.1, 0) := by
  have hfetch : fetchExamDefinitionWithFallback oracle cache w
      = ({ parseAcademic data with icon := some (examIconFor w) },
         (w, { parseAcademic data with icon := some (examIconFor w) }) :: cache, 1) := by
    rw [fetchExamDefinitionWithFallback, hmiss]
    simp only [academicSources, runSources, hdata]
  have hparse : (parseAcademic data).definition = "No advanced definition found." := by
    rcases hempty with he | he <;> simp [parseAcademic, hhead, hm, hd, he]
  refine ⟨?_, ?_, examIconFor_ne_question w, ?_, ?_⟩
  · rw [hfetch]
    exact hparse
  · rw [hfetch]
  · rw [hfetch]
  · rw [hfetch]
    rw [fetchExamDefinitionWithFallback]
    simp [List.lookup]

/-- Witness for C10: a payload whose first definition object has no
definition text. -/
theorem empty_definition_default_cached_witness :
    (([] : DefinitionCache).lookup "method" = none
      ∧ ((fun w => if w = "method" then some [⟨[⟨some "noun", [⟨none, none⟩]⟩]⟩] else none) : FetchOracle)
          "method" = some [⟨[⟨some "noun", [⟨none, none⟩]⟩]⟩]
      ∧ ([⟨[⟨some "noun", [⟨none, none⟩]⟩]⟩] : ApiData).head?
          = some ⟨[⟨some "noun", [⟨none, none⟩]⟩]⟩
      ∧ (⟨[⟨some "noun", [⟨none, none⟩]⟩]⟩ : ApiEntry).meanings.head?
          = some ⟨some "noun", [⟨none, none⟩]⟩
      ∧ (⟨some "noun", [⟨none, none⟩]⟩ : ApiMeaningJson).definitions.head?
          = some ⟨none, none⟩
      ∧ ((⟨none, none⟩ : ApiDefinitionJson).definition = none
          ∨ (⟨none, none⟩ : ApiDefinitionJson).definition = some ""))
    ∧ ((fetchExamDefinitionWithFallback
          (fun w => if w = "method" then some [⟨[⟨some "noun", [⟨none, none⟩]⟩]⟩] else none)
          [] "method").1.definition = "No advanced definition found."
      ∧ (fetchExamDefinitionWithFallback
          (fun w => if w = "method" then some [⟨[⟨some "noun", [⟨none, none⟩]⟩]⟩] else none)
          [] "method").1.icon = some (examIconFor "method")
      ∧ examIconFor "method" ≠ "❓"
      ∧ (fetchExamDefinitionWithFallback
          (fun w => if w = "method" then some [⟨[⟨some "noun", [⟨none, none⟩]⟩]⟩] else none)
          [] "method").2.1
          = ("method", (fetchExamDefinitionWithFallback
              (fun w => if w = "method" then some [⟨[⟨some "noun", [⟨none, none⟩]⟩]⟩] else none)
              [] "method").1) :: []
      ∧ fetchExamDefinitionWithFallback
          (fun w => if w = "method" then some [⟨[⟨some "noun", [⟨none, none⟩]⟩]⟩] else none)
          ((fetchExamDefinitionWithFallback
              (fun w => if w = "method" then some [⟨[⟨some "noun", [⟨none, none⟩]⟩]⟩] else none)
              [] "method").2.1) "method"
          = ((fetchExamDefinitionWithFallback
              (fun w => if w = "method" then some [⟨[⟨some "noun", [⟨none, none⟩]⟩]⟩] else none)
              [] "method").1,
             (fetchExamDefinitionWithFallback
              (fun w => if w = "method" then some [⟨[⟨some "noun", [⟨none, none⟩]⟩]⟩] else none)
              [] "method").2.1, 0)) :=
  ⟨⟨rfl, by decide, rfl, rfl, rfl, Or.inl rfl⟩,
   empty_definition_default_cached
     (fun w => if w = "method" then some [⟨[⟨some "noun", [⟨none, none⟩]⟩]⟩] else none)
     [] "method" [⟨[⟨some "noun", [⟨none, none⟩]⟩]⟩] ⟨[⟨some "noun", [⟨none, none⟩]⟩]⟩
     ⟨some "noun", [⟨none, none⟩]⟩ ⟨none, none⟩
     rfl (by decide) rfl rfl rfl (Or.inl rfl)⟩


/-- Counterexample to C6 as stated: when the first lookup fails (the
oracle models a network error or timeout), nothing is cached, so two
consecutive requests containing the same word trigger one external
lookup EACH — two in total, not exactly one. -/
theorem two_requests_double_lookup_on_failure :
    (handler (fun _ => none) [] ⟨"POST", some "hypothesis", some 9⟩).2.2 = 1
    ∧ (handler (fun _ => none)
        (handler (fun _ => none) [] ⟨"POST", some "hypothesis", some 9⟩).2.1
        ⟨"POST", some "hypothesis", some 9⟩).2.2 = 1
    ∧ ¬((handler (fun _ => none) [] ⟨"POST", some "hypothesis", some 9⟩).2.2
        + (handler (fun _ => none)
            (handler (fun _ => none) [] ⟨"POST", some "hypothesis", some 9⟩).2.1
            ⟨"POST", some "hypothesis", some 9⟩).2.2 = 1) := by
  refine ⟨by decide, by decide, by decide⟩

/-- C6 amended: a cache hit returns the cached entry with no external
call; consequently, when the first lookup for a word SUCCEEDS, two
consecutive requests whose (truncated) candidate list is that word
trigger exactly one external lookup — one on the first request, zero
on the second, which is served from the cache. -/
theorem second_request_served_from_cache
    (oracle : FetchOracle) (cache : DefinitionCache) (t : String) (n : Int)
    (w : String) (d : ApiData)
    (ht : t ≠ "") (hn : n ≠ 0)
    (hws : (extractCandidates t n).take 10 = [w])
    (hmiss : cache.lookup w = none) (hsucc : oracle w = some d) :
    (∀ (c2 : DefinitionCache) (e : ExamWordDefinition), c2.lookup w = some e →
        fetchExamDefinitionWithFallback oracle c2 w = (e, c2, 0))
    ∧ (handler oracle cache ⟨"POST", some t, some n⟩).2.2 = 1
    ∧ (handler oracle
        (handler oracle cache ⟨"POST", some t, some n⟩).2.1
        ⟨"POST", some t, some n⟩).2.2 = 0 := by
  have hhit : ∀ (c2 : DefinitionCache) (e : ExamWordDefinition), c2.lookup w = some e →
      fetchExamDefinitionWithFallback oracle c2 w = (e, c2, 0) := by
    intro c2 e he
    rw [fetchExamDefinitionWithFallback, he]
  have hfetch1 : fetchExamDefinitionWithFallback oracle cache w
      = ({ parseAcademic d with icon := some (examIconFor w) },
         (w, { parseAcademic d with icon := some (examIconFor w) }) :: cache, 1) := by
    rw [fetchExamDefinitionWithFallback, hmiss]
    simp only [academicSources, runSources, hsucc]
  have hc1 : (handler oracle cache ⟨"POST", some t, some n⟩).2.1
      = (w, { parseAcademic d with icon := some (examIconFor w) }) :: cache := by
    rw [handler_post_valid oracle cache t n ht hn, hws]
    show (runExamLookups oracle cache [w]).2.1 = _
    rw [runExamLookups]
    simp only [hfetch1]
    rfl
  have hcount1 : (handler oracle cache ⟨"POST", some t, some n⟩).2.2 = 1 := by
    rw [handler_post_valid oracle cache t n ht hn, hws]
    show (runExamLookups oracle cache [w]).2.2 = 1
    rw [runExamLookups]
    simp only [hfetch1]
    rfl
  refine ⟨hhit, hcount1, ?_⟩
  rw [hc1]
  rw [handler_post_valid oracle
    ((w, { parseAcademic d with icon := some (examIconFor w) }) :: cache) t n ht hn, hws]
  show (runExamLookups oracle
    ((w, { parseAcademic d with icon := some (examIconFor w) }) :: cache) [w]).2.2 = 0
  rw [runExamLookups]
  have hl : ((w, { parseAcademic d with icon := some (examIconFor w) }) :: cache).lookup w
      = some { parseAcademic d with icon := some (examIconFor w) } := by
    simp [List.lookup]
  simp only [hhit _ _ hl]
  rfl

/-- Witness for C6 amended: successful oracle, single-word text. -/
theorem second_request_served_from_cache_witness :
    ("hypothesis" ≠ "" ∧ (9 : Int) ≠ 0
      ∧ (extractCandidates "hypothesis" 9).take 10 = ["hypothesis"]
      ∧ (([] : DefinitionCache).lookup "hypothesis" = none)
      ∧ ((fun w => if w = "hypothesis" then some [] else none) : FetchOracle) "hypothesis"
          = some [])
    ∧ ((∀ (c2 : DefinitionCache) (e : ExamWordDefinition),
          c2.lookup "hypothesis" = some e →
          fetchExamDefinitionWithFallback
            (fun w => if w = "hypothesis" then some [] else none) c2 "hypothesis"
            = (e, c2, 0))
      ∧ (handler (fun w => if w = "hypothesis" then some [] else none) []
          ⟨"POST", some "hypothesis", some 9⟩).2.2 = 1
      ∧ (handler (fun w => if w = "hypothesis" then some [] else none)
          (handler (fun w => if w = "hypothesis" then some [] else none) []
            ⟨"POST", some "hypothesis", some 9⟩).2.1
          ⟨"POST", some "hypothesis", some 9⟩).2.2 = 0) :=
  ⟨⟨by decide, by decide, by decide, rfl, by decide⟩,
   second_request_served_from_cache
     (fun w => if w = "hypothesis" then some [] else none) [] "hypothesis" 9 "hypothesis" []
     (by decide) (by decide) (by decide) rfl (by decide)⟩

/-- Counterexample to C7 as stated: a negative minimum word length
(here -1, which is less than 1) is NOT rejected — JavaScript truthiness
only catches 0 — and the handler answers 200 (the interpolated pattern
is then matched literally, finding no word at all in plain text). -/
theorem negative_wordSize_not_rejected :
    (-1 : Int) < 1
    ∧ (handler (fun _ => none) [] ⟨"POST", some "hello", some (-1)⟩).1
        = ExamApiResponse.ok [] 0 0
    ∧ ∀ e, (handler (fun _ => none) [] ⟨"POST", some "hello", some (-1)⟩).1
        ≠ ExamApiResponse.badRequest e := by
  refine ⟨by decide, by decide, ?_⟩
  intro e h
  have hok : (handler (fun _ => none) [] ⟨"POST", some "hello", some (-1)⟩).1
      = ExamApiResponse.ok [] 0 0 := by decide
  rw [hok] at h
  cases h

/-- C7 amended: the handler rejects with 400 `Invalid exam input`
exactly the falsy wordSize values — 0 or missing — before processing
the text (no lookups, cache untouched); negative values pass this
validation (see the counterexample). -/
theorem falsy_wordSize_rejected
    (oracle : FetchOracle) (cache : DefinitionCache) (req : ExamApiRequest)
    (hm : req.method = "POST")
    (hws : req.wordSize = some 0 ∨ req.wordSize = none) :
    (handler oracle cache req).1 = ExamApiResponse.badRequest "Invalid exam input"
    ∧ (handler oracle cache req).2.1 = cache
    ∧ (handler oracle cache req).2.2 = 0 := by
  obtain ⟨m0, t0, ws0⟩ := req
  have hm2 : m0 = "POST" := hm
  subst hm2
  rcases hws with h | h
  · have h2 : ws0 = some 0 := h
    subst h2
    cases t0 <;> simp [handler]
  · have h2 : ws0 = none := h
    subst h2
    cases t0 <;> simp [handler]

/-- Witness for C7 amended: wordSize 0 is rejected. -/
theorem falsy_wordSize_rejected_witness :
    ((⟨"POST", some "hello", some 0⟩ : ExamApiRequest).method = "POST"
      ∧ ((⟨"POST", some "hello", some 0⟩ : ExamApiRequest).wordSize = some 0
          ∨ (⟨"POST", some "hello", some 0⟩ : ExamApiRequest).wordSize = none))
    ∧ ((handler (fun _ => none) [] ⟨"POST", some "hello", some 0⟩).1
        = ExamApiResponse.badRequest "Invalid exam input"
      ∧ (handler (fun _ => none) [] ⟨"POST", some "hello", some 0⟩).2.1 = []
      ∧ (handler (fun _ => none) [] ⟨"POST", some "hello", some 0⟩).2.2 = 0) :=
  ⟨⟨rfl, Or.inl rfl⟩,
   falsy_wordSize_rejected (fun _ => none) [] ⟨"POST", some "hello", some 0⟩ rfl (Or.inl rfl)⟩

/-- C8: a POST request whose text is missing or empty, or whose
wordSize is missing, is answered 400 with error `Invalid exam input`,
no external lookup is issued, and the cache is untouched. -/
theorem invalid_input_400_no_lookups
    (oracle : FetchOracle) (cache : DefinitionCache) (req : ExamApiRequest)
    (hm : req.method = "POST")
    (hbad : req.text = none ∨ req.text = some "" ∨ req.wordSize = none) :
    (handler oracle cache req).1 = ExamApiResponse.badRequest "Invalid exam input"
    ∧ (handler oracle cache req).2.2 = 0
    ∧ (handler oracle cache req).2.1 = cache := by
  obtain ⟨m0, t0, ws0⟩ := req
  have hm2 : m0 = "POST" := hm
  subst hm2
  rcases hbad with h | h | h
  · have h2 : t0 = none := h
    subst h2
    cases ws0 <;> simp [handler]
  · have h2 : t0 = some "" := h
    subst h2
    cases ws0 <;> simp [handler]
  · have h2 : ws0 = none := h
    subst h2
    cases t0 <;> simp [handler]

/-- Witness for C8: empty text. -/
theorem invalid_input_400_no_lookups_witness :
    ((⟨"POST", some "", some 5⟩ : ExamApiRequest).method = "POST"
      ∧ ((⟨"POST", some "", some 5⟩ : ExamApiRequest).text = none
          ∨ (⟨"POST", some "", some 5⟩ : ExamApiRequest).text = some ""
          ∨ (⟨"POST", some "", some 5⟩ : ExamApiRequest).wordSize = none))
    ∧ ((handler (fun _ => none) [] ⟨"POST", some "", some 5⟩).1
        = ExamApiResponse.badRequest "Invalid exam input"
      ∧ (handler (fun _ => none) [] ⟨"POST", some "", some 5⟩).2.2 = 0
      ∧ (handler (fun _ => none) [] ⟨"POST", some "", some 5⟩).2.1 = []) :=
  ⟨⟨rfl, Or.inr (Or.inl rfl)⟩,
   invalid_input_400_no_lookups (fun _ => none) [] ⟨"POST", some "", some 5⟩ rfl
     (Or.inr (Or.inl rfl))⟩

end ExamVocab
